import Mathlib

/-!
Verification of the HackStream priority / dependency-resolution engine.

The definitions below are a shallow embedding of the engine found in
`src/App.jsx` (priority calculator `calculateComputedPriority`, status
resolver `calculateEffectiveStatus`, ranking `sortByPriority`) and of the
execution simulator component `PrioritySimulation`.

Modelling conventions:
* JavaScript numbers are modelled by `JNum`: NaN, the two infinities, and
  finite values as exact rationals.  The engine only multiplies, divides
  and compares; no rounding-sensitive fact is used by any theorem (in
  particular the literal `0.001` and the quotient `1 / 1000` denote the
  same IEEE double, just as they denote the same rational here).
* Raw task fields that may be `undefined` / `null` are `Option`s, numeric
  raw fields are `JSVal` (which has `undefined` and `null` constructors).
* `toLowerCase` / `trim` are modelled character-wise for the ASCII range,
  which covers every status string the normalizer distinguishes.
* A JS `Map` built from a list of key/value pairs keeps the LAST binding
  of each key; `jsMapGet` models `new Map(tasks.map(t => [String(t.id), t]))`
  followed by `.get`.
* Tasks are modelled without a `deadline` timestamp: the branch of
  `calculateComputedPriority` that recomputes `hours_left_until_deadline`
  from `task.deadline` reads the wall clock (`Date.now()`) and only fires
  when a deadline string is present, so it is inert here.
* The simulator state (`completedTaskIds` set plus `completionOrder` list,
  always updated together with the same fresh id) is modelled by the single
  completion-history list; membership in the history is membership in the
  completed set.
* `Array.prototype.sort` with a consistent comparator `cmp` is (per the
  ECMAScript spec) the stable sort by the total preorder `cmp a b <= 0`;
  it is modelled by `List.mergeSort` with that boolean relation, which is
  the unique stable sort for it.
-/

namespace HackStream

/-- A raw JavaScript value appearing in a numeric task field. -/
inductive JSVal where
  | undefined : JSVal
  | null : JSVal
  | nan : JSVal
  | infinity : JSVal
  | negInfinity : JSVal
  | num : ℚ → JSVal
deriving DecidableEq

/-- A JavaScript number: NaN, the infinities, or a finite value (exact rational). -/
inductive JNum where
  | nan : JNum
  | posInf : JNum
  | negInf : JNum
  | fin : ℚ → JNum
deriving DecidableEq

namespace JNum

/-- Number.isFinite. -/
def isFinite : JNum → Bool
  | fin _ => true
  | _ => false

/-- IEEE multiplication on `JNum` (sign of zero dropped, exact otherwise). -/
def jmul : JNum → JNum → JNum
  | nan, _ => nan
  | _, nan => nan
  | posInf, posInf => posInf
  | posInf, negInf => negInf
  | negInf, posInf => negInf
  | negInf, negInf => posInf
  | posInf, fin q => if 0 < q then posInf else if q < 0 then negInf else nan
  | fin q, posInf => if 0 < q then posInf else if q < 0 then negInf else nan
  | negInf, fin q => if 0 < q then negInf else if q < 0 then posInf else nan
  | fin q, negInf => if 0 < q then negInf else if q < 0 then posInf else nan
  | fin a, fin b => fin (a * b)

/-- IEEE division on `JNum` (sign of zero dropped, exact otherwise). -/
def jdiv : JNum → JNum → JNum
  | nan, _ => nan
  | _, nan => nan
  | posInf, posInf => nan
  | posInf, negInf => nan
  | negInf, posInf => nan
  | negInf, negInf => nan
  | posInf, fin q => if q < 0 then negInf else posInf
  | negInf, fin q => if q < 0 then posInf else negInf
  | fin _, posInf => fin 0
  | fin _, negInf => fin 0
  | fin a, fin b =>
    if b = 0 then (if a = 0 then nan else if 0 < a then posInf else negInf)
    else fin (a / b)

end JNum

/-- Models `Number(v ?? d)` for a raw field value `v` and a numeric literal
default `d`: `undefined` and `null` fall back to the default, every other
value is coerced to the number it already denotes. -/
def jsNumOr (v : JSVal) (d : ℚ) : JNum :=
  match v with
  | JSVal.undefined => JNum.fin d
  | JSVal.null => JNum.fin d
  | JSVal.nan => JNum.nan
  | JSVal.infinity => JNum.posInf
  | JSVal.negInfinity => JNum.negInf
  | JSVal.num q => JNum.fin q

/-- A task record as consumed by the engine (`src/App.jsx`).  Fields that the
code reads with `??` or truthiness guards are `Option`s; numeric raw fields
are `JSVal`.  `computedPriority` and `priority` are the annotations carried
by normalized tasks and read by the ranking's sort key. -/
structure Task where
  id : String
  title : Option String
  status : Option String
  dependsOn : Option (List String)
  dependencies : Option (List String)
  importance : JSVal
  effort : JSVal
  hours_left_until_deadline : JSVal
  computedPriority : Option ℚ
  priority : Option ℚ
deriving DecidableEq

/-- A task with every optional field absent, used to build concrete records. -/
def blankTask : Task :=
  { id := "", title := none, status := none, dependsOn := none,
    dependencies := none, importance := JSVal.undefined,
    effort := JSVal.undefined, hours_left_until_deadline := JSVal.undefined,
    computedPriority := none, priority := none }

/-- ASCII lower-casing of one character (JS `toLowerCase` on the code points
the status table distinguishes). -/
def lowerChar (c : Char) : Char :=
  if c.isUpper then c.toLower else c

/-- ASCII whitespace test used by the `trim` model. -/
def isSpaceChar (c : Char) : Bool :=
  c = ' ' ∨ c = '\t' ∨ c = '\n' ∨ c = '\r'

/-- Models `s.toLowerCase().trim()` character-wise. -/
def lowerTrim (s : String) : String :=
  String.mk
    ((((s.data.map lowerChar).dropWhile isSpaceChar).reverse.dropWhile
      isSpaceChar).reverse)

/-- Models `normalizeStatus` from `src/App.jsx`: stringify (`undefined` and
`null` become the empty string), lower-case, trim, then map through the
synonym table, defaulting to `todo`. -/
def normalizeStatus (s : Option String) : String :=
  let v := lowerTrim (Option.getD s (""))
  if v = "done" then "done"
  else if v = "ongoing" ∨ v = "on going" ∨ v = "in progress" then "ongoing"
  else if v = "restricted" ∨ v = "blocked" then "restricted"
  else "todo"

/-- Models `new Map(allTasks.map(t => [String(t.id), t])).get(k)`: the last
task in the list whose id is `k`, if any (later `Map.set` calls overwrite
earlier bindings of the same key). -/
def jsMapGet (l : List Task) (k : String) : Option Task :=
  l.reverse.find? (fun t => t.id == k)

/-- The dependency id list the resolver reads: `dependsOn` when it is an
array, else `dependencies` when it is an array, else empty
(`calculateEffectiveStatus`, `src/App.jsx`). -/
def depsOf (t : Task) : List String :=
  match t.dependsOn with
  | some l => l
  | none => t.dependencies.getD []

/-- The `unmet` list of `calculateEffectiveStatus`: dependency ids that
resolve in the collection to a task whose normalized raw status is not
`done`.  Ids that resolve to nothing are dropped. -/
def unmetDeps (task : Task) (allTasks : List Task) : List String :=
  (depsOf task).filter (fun d =>
    match jsMapGet allTasks d with
    | some depTask => !(normalizeStatus depTask.status == "done")
    | none => false)

/-- Models `byId.get(id)?.title || id`: the referenced task's title, falling
back to the raw id when the task or its title is absent or the title is the
empty string. -/
def depLabel (allTasks : List Task) (d : String) : String :=
  match jsMapGet allTasks d with
  | some t =>
    match t.title with
    | some s => if s = "" then d else s
    | none => d
  | none => d

/-- The labels that `blockedReason` names: the first four unmet dependency
ids mapped through `depLabel` (the code's `unmet.map(...).slice(0, 4)`,
which equals mapping after slicing since the map is per-element). -/
def namedLabels (task : Task) (allTasks : List Task) : List String :=
  ((unmetDeps task allTasks).take 4).map (depLabel allTasks)

/-- The `blockedReason` component of `calculateEffectiveStatus`: non-null
exactly when `unmet` is non-empty (the code does NOT consult the raw status
here), listing up to four labels and an ellipsis marker beyond four. -/
def blockedReasonOf (task : Task) (allTasks : List Task) : Option String :=
  let unmet := unmetDeps task allTasks
  if unmet = [] then none
  else some ((String.append (String.append ("Blocked by: ")
      (String.intercalate (", ") (namedLabels task allTasks)))
      (if 4 < unmet.length then ("…") else (""))))

/-- The `effectiveStatus` component of `calculateEffectiveStatus`: the
normalized raw status, overridden to `restricted` when the raw status is not
`done` and some dependency is unmet. -/
def effectiveStatusOf (task : Task) (allTasks : List Task) : String :=
  let raw := normalizeStatus task.status
  if raw ≠ "done" ∧ unmetDeps task allTasks ≠ [] then "restricted" else raw

/-- Models `calculateEffectiveStatus(task, allTasks)` from `src/App.jsx`,
returning the pair `{effectiveStatus, blockedReason}`. -/
def calculateEffectiveStatus (task : Task) (allTasks : List Task) :
    String × Option String :=
  (effectiveStatusOf task allTasks, blockedReasonOf task allTasks)

/-- The body of `calculateComputedPriority(task)` from `src/App.jsx` before
its final finiteness guard, for tasks without a `deadline` timestamp (see
the header note): coerce the three raw fields with their defaults, compute
`urgency` with the `0.001` floor for non-finite or non-positive hours,
guard the effort divisor to be positive, and form
`(importance * urgency) / safeEffort`. -/
def rawComputedPriority (t : Task) : JNum :=
  let importance := jsNumOr t.importance 3
  let effort := jsNumOr t.effort 1
  let hoursUntilDeadline := jsNumOr t.hours_left_until_deadline 0
  let urgency : JNum :=
    match hoursUntilDeadline with
    | JNum.fin q => if q ≤ 0 then JNum.fin (1 / 1000) else JNum.fin (1 / q)
    | _ => JNum.fin (1 / 1000)
  let safeEffort : JNum :=
    match effort with
    | JNum.fin q => if 0 < q then JNum.fin q else JNum.fin 1
    | JNum.posInf => JNum.posInf
    | _ => JNum.fin 1
  JNum.jdiv (JNum.jmul importance urgency) safeEffort

/-- Models `calculateComputedPriority(task)`: the raw quotient when it is
finite, `0` otherwise. -/
def calculateComputedPriority (t : Task) : JNum :=
  if (rawComputedPriority t).isFinite then rawComputedPriority t
  else JNum.fin 0

/-- The rational carried by the (always finite) computed priority. -/
def priorityValue (t : Task) : ℚ :=
  match calculateComputedPriority t with
  | JNum.fin q => q
  | _ => 0

/-- The sort key of `sortByPriority`: `a.computedPriority ?? a.priority ?? 0`. -/
def taskSortKey (t : Task) : ℚ :=
  t.computedPriority.getD (t.priority.getD 0)

/-- Whether the ranking treats `t` as blocked in collection `ctx`:
`calculateEffectiveStatus(t, ctx).effectiveStatus === "restricted"`. -/
def isBlockedIn (ctx : List Task) (t : Task) : Bool :=
  effectiveStatusOf t ctx == "restricted"

/-- The total preorder induced by the comparator shared by `sortByPriority`
and the simulator's `sortedTasks`: `cmp(a, b) <= 0` where `cmp` returns
`aBlocked ? 1 : -1` when blocked flags differ and `bPriority - aPriority`
otherwise (unblocked first, then priority descending). -/
def blockLe {α : Type} (f : α → Bool) (g : α → ℚ) (a b : α) : Bool :=
  if f a ≠ f b then !(f a) else decide (g b ≤ g a)

/-- Models `sortByPriority(taskList)` from `src/App.jsx`: the stable sort of
`taskList` by the comparator above, with blocked flags computed by
`calculateEffectiveStatus` against the ambient collection `ctx` (the
component's full normalized task list). -/
def sortByPriority (ctx : List Task) (taskList : List Task) : List Task :=
  taskList.mergeSort (blockLe (isBlockedIn ctx) taskSortKey)

/-- The per-task body of the simulator's shadow overlay: a task whose id is
in the completed set is shown with raw status `done`. -/
def overlayFn (completed : List String) (t : Task) : Task :=
  if completed.contains t.id then { t with status := some ("done") } else t

/-- The simulator's shadow overlay (`tasksWithSimulationStatus` in
`PrioritySimulation`): every task whose id is in the completed set is shown
with raw status `done`. -/
def overlayDone (tasks : List Task) (completed : List String) : List Task :=
  tasks.map (overlayFn completed)

/-- One entry of the simulator's `taskBreakdowns` (only the fields later
steps read are kept; the spread copy of the raw task is the `task` field). -/
structure Breakdown where
  task : Task
  computedPriority : ℚ
  isBlocked : Bool
  effectiveStatus : String
  isCompletedInSimulation : Bool
deriving DecidableEq

/-- The breakdown of one task: the simulator recomputes the priority with
the same formula as `calculateComputedPriority` (it never consults a
`deadline` timestamp), and resolves the status of the ORIGINAL task record
against the overlaid collection. -/
def mkBreakdown (withSim : List Task) (completed : List String) (t : Task) :
    Breakdown :=
  { task := t
    computedPriority := priorityValue t
    isBlocked := effectiveStatusOf t withSim == "restricted"
    effectiveStatus := effectiveStatusOf t withSim
    isCompletedInSimulation := completed.contains t.id }

/-- The simulator's `taskBreakdowns` memo. -/
def taskBreakdowns (tasks : List Task) (completed : List String) :
    List Breakdown :=
  tasks.map (mkBreakdown (overlayDone tasks completed) completed)

/-- The simulator's `sortedTasks`: stable sort of the breakdowns, unblocked
first, then computed priority descending. -/
def sortedSimTasks (tasks : List Task) (completed : List String) :
    List Breakdown :=
  (taskBreakdowns tasks completed).mergeSort
    (blockLe Breakdown.isBlocked Breakdown.computedPriority)

/-- The simulator's `executionOrder`: the sorted breakdowns that are
unblocked, not (effectively) done, and not already completed in the
simulation. -/
def executionOrder (tasks : List Task) (completed : List String) :
    List Breakdown :=
  (sortedSimTasks tasks completed).filter (fun b =>
    !b.isBlocked && !(b.effectiveStatus == "done") &&
      !b.isCompletedInSimulation)

/-- One simulator step (the auto-play interval body): if the execution order
is non-empty, mark its first task completed and append its id to the
completion history; otherwise stop (state unchanged). -/
def simStep (tasks : List Task) (hist : List String) : List String :=
  match executionOrder tasks hist with
  | [] => hist
  | b :: _ => hist ++ [b.task.id]

/-- Running the simulator for `n` steps from the fresh state. -/
def simRun (tasks : List Task) : Nat → List String
  | 0 => []
  | n + 1 => simStep tasks (simRun tasks n)

example : normalizeStatus (some ("  In Progress ")) = "ongoing" := by decide
example : normalizeStatus none = "todo" := by decide
example : normalizeStatus (some ("Blocked")) = "restricted" := by decide

example : priorityValue blankTask = 3 / 1000 := by
  norm_num [priorityValue, calculateComputedPriority, rawComputedPriority,
    blankTask, jsNumOr, JNum.jmul, JNum.jdiv, JNum.isFinite]

/-- The finiteness guard means the computed priority is always a finite
number, namely `priorityValue`. -/
lemma cp_eq_fin (t : Task) :
    calculateComputedPriority t = JNum.fin (priorityValue t) := by
  unfold priorityValue calculateComputedPriority
  cases h : rawComputedPriority t <;> simp [h, JNum.isFinite]

/-- The six edge values of the priority-safety property. -/
def edgeVals : List JSVal :=
  [JSVal.undefined, JSVal.null, JSVal.nan, JSVal.num (-5), JSVal.num 0,
    JSVal.infinity]

/-- A task whose three numeric fields are the given raw values. -/
def edgeTask (i e h : JSVal) : Task :=
  { blankTask with
      importance := i, effort := e, hours_left_until_deadline := h }

/-- The edge combination `importance = -5`, `effort = undefined`,
`hoursUntilDeadline = undefined`. -/
def negImportanceTask : Task :=
  edgeTask (JSVal.num (-5)) JSVal.undefined JSVal.undefined

/-- Claim C2, counterexample: at `importance = -5`, `effort = undefined`,
`hoursUntilDeadline = undefined` (all drawn from the claimed edge set),
`calculateComputedPriority` returns the finite number `-0.005`, which is
negative — so the claimed "finite number ≥ 0" fails. -/
theorem C2_counterexample :
    calculateComputedPriority negImportanceTask = JNum.fin (-(1 / 200)) ∧
    ¬ (0 : ℚ) ≤ -(1 / 200) := by
  constructor
  · norm_num [negImportanceTask, edgeTask, calculateComputedPriority,
      rawComputedPriority, blankTask, jsNumOr, JNum.jmul, JNum.jdiv,
      JNum.isFinite]
  · norm_num

/-- Claim C2, amended: for every combination of the edge values,
`calculateComputedPriority` returns a finite number, and that number is
non-negative whenever the importance value is not the negative one `-5`. -/
theorem C2_amended :
    ∀ i ∈ edgeVals, ∀ e ∈ edgeVals, ∀ h ∈ edgeVals,
      calculateComputedPriority (edgeTask i e h) =
        JNum.fin (priorityValue (edgeTask i e h)) ∧
      (i ≠ JSVal.num (-5) → 0 ≤ priorityValue (edgeTask i e h)) := by
  intro i hi e he h hh
  refine ⟨cp_eq_fin _, fun hnei => ?_⟩
  fin_cases hi <;> first
    | exact absurd rfl hnei
    | (fin_cases he <;> fin_cases hh <;>
        norm_num [priorityValue, calculateComputedPriority,
          rawComputedPriority, edgeTask, blankTask, jsNumOr, JNum.jmul,
          JNum.jdiv, JNum.isFinite])

/-- Witness for C2: the all-`undefined` combination evaluates to the finite
non-negative priority. -/
theorem C2_witness :
    calculateComputedPriority
        (edgeTask JSVal.undefined JSVal.undefined JSVal.undefined) =
      JNum.fin
        (priorityValue
          (edgeTask JSVal.undefined JSVal.undefined JSVal.undefined)) ∧
    0 ≤ priorityValue
        (edgeTask JSVal.undefined JSVal.undefined JSVal.undefined) := by
  have h := C2_amended JSVal.undefined (by decide) JSVal.undefined (by decide)
    JSVal.undefined (by decide)
  exact ⟨h.1, h.2 (by decide)⟩

/-- A task overdue by one hour (all other fields defaulted). -/
def overdueTask : Task :=
  { blankTask with hours_left_until_deadline := JSVal.num (-1) }

/-- An otherwise-identical task with a 1000-hour deadline window. -/
def farDeadlineTask : Task :=
  { blankTask with hours_left_until_deadline := JSVal.num 1000 }

/-- Claim C3, counterexample: with all other fields defaulted, the overdue
task (`hoursUntilDeadline = -1`) and the `hoursUntilDeadline = 1000` task
both get computed priority `3/1000` — the urgency floor `0.001` EQUALS
`1/1000` rather than exceeding it, so the claimed strict inequality fails. -/
theorem C3_counterexample :
    priorityValue overdueTask = 3 / 1000 ∧
    priorityValue farDeadlineTask = 3 / 1000 ∧
    ¬ priorityValue farDeadlineTask < priorityValue overdueTask := by
  refine ⟨?_, ?_, ?_⟩ <;>
    norm_num [overdueTask, farDeadlineTask, priorityValue,
      calculateComputedPriority, rawComputedPriority, blankTask, jsNumOr,
      JNum.jmul, JNum.jdiv, JNum.isFinite]

/-- Claim C3, amended: for EVERY task, setting `hoursUntilDeadline = -1`
yields exactly the same computed priority as setting it to `1000`: the
urgency floor `0.001` equals `1/1000`, so the two priorities are equal (the
overdue task's priority is ≥, never strictly greater). -/
theorem C3_amended (t : Task) :
    priorityValue { t with hours_left_until_deadline := JSVal.num (-1) } =
      priorityValue { t with hours_left_until_deadline := JSVal.num 1000 } := by
  obtain ⟨i₁, t₁, s₁, d₁, d₂, imp, eff, hrs, cp, pr⟩ := t
  norm_num [priorityValue, calculateComputedPriority, rawComputedPriority,
    jsNumOr]

/-- Claim C5 (confirmed): the effective status is `done` exactly when the
raw status normalizes to `done`; dependency state can neither override a
done raw status nor produce `done` for a non-done raw status. -/
theorem C5_done_iff (t : Task) (c : List Task) :
    effectiveStatusOf t c = "done" ↔ normalizeStatus t.status = "done" := by
  unfold effectiveStatusOf
  by_cases h : normalizeStatus t.status = "done"
  · simp [h]
  · by_cases hu : unmetDeps t c = [] <;> simp [h, hu]

/-- A raw-done task that depends on a not-done task. -/
def doneWithDepTask : Task :=
  { blankTask with
      id := "a", status := some ("done"), dependsOn := some (["b"]) }

/-- The not-done dependency of `doneWithDepTask`. -/
def depTodoTask : Task :=
  { blankTask with
      id := "b", title := some ("B"), status := some ("todo") }

/-- The collection holding both. -/
def c4Collection : List Task := [doneWithDepTask, depTodoTask]

/-- Claim C4, counterexample: a task whose raw status is `done` but which
has an unmet dependency still gets a NON-null `blockedReason` (the code
computes the reason from the unmet list alone, without consulting the raw
status), while its effective status is `done`, not `restricted`. -/
theorem C4_counterexample :
    normalizeStatus doneWithDepTask.status = "done" ∧
    effectiveStatusOf doneWithDepTask c4Collection = "done" ∧
    blockedReasonOf doneWithDepTask c4Collection = some ("Blocked by: B") := by
  decide

/-- Claim C4, amended: `blockedReason` is null exactly when the task has no
resolvable unmet dependency — independent of the raw status — and a done
raw status still forces `effectiveStatus = done`. -/
theorem C4_amended (t : Task) (c : List Task) :
    (blockedReasonOf t c = none ↔ unmetDeps t c = []) ∧
    (normalizeStatus t.status = "done" → effectiveStatusOf t c = "done") := by
  constructor
  · unfold blockedReasonOf
    by_cases hu : unmetDeps t c = [] <;> simp [hu]
  · intro h
    unfold effectiveStatusOf
    simp [h]

/-- Witness for C4: the done task with an unmet dependency keeps effective
status `done`. -/
theorem C4_witness :
    effectiveStatusOf doneWithDepTask c4Collection = "done" :=
  (C4_amended doneWithDepTask c4Collection).2 (by decide)

/-- A task whose importance field holds NaN. -/
def nanImportanceTask : Task := { blankTask with importance := JSVal.nan }

/-- Claim C8, counterexample: a present-but-invalid importance (NaN) is NOT
treated like `importance = 3`: the NaN propagates to the final quotient and
the finiteness guard turns it into `0`, while the same task with
`importance = 3` gets `3/1000`. -/
theorem C8_counterexample :
    priorityValue nanImportanceTask = 0 ∧
    priorityValue { nanImportanceTask with importance := JSVal.num 3 } =
      3 / 1000 ∧
    (0 : ℚ) ≠ 3 / 1000 := by
  refine ⟨?_, ?_, ?_⟩ <;>
    norm_num [nanImportanceTask, priorityValue, calculateComputedPriority,
      rawComputedPriority, blankTask, jsNumOr, JNum.jmul, JNum.jdiv,
      JNum.isFinite]

/-- Claim C8, amended: importance defaults to `3` only when ABSENT
(`undefined`/`null`); a NaN importance instead collapses the whole priority
to `0`.  Effort behaves as claimed: absent, NaN, negative-infinite or
non-positive effort computes exactly like `effort = 1`. -/
theorem C8_amended (t : Task) :
    ((t.importance = JSVal.undefined ∨ t.importance = JSVal.null) →
      calculateComputedPriority t =
        calculateComputedPriority { t with importance := JSVal.num 3 }) ∧
    (t.importance = JSVal.nan →
      calculateComputedPriority t = JNum.fin 0) ∧
    ((t.effort = JSVal.undefined ∨ t.effort = JSVal.null ∨
        t.effort = JSVal.nan ∨ t.effort = JSVal.negInfinity ∨
        (∃ q, t.effort = JSVal.num q ∧ q ≤ 0)) →
      calculateComputedPriority t =
        calculateComputedPriority { t with effort := JSVal.num 1 }) := by
  obtain ⟨i₁, t₁, s₁, d₁, d₂, imp, eff, hrs, cp, pr⟩ := t
  refine ⟨?_, ?_, ?_⟩
  · rintro (h | h) <;> subst h <;>
      norm_num [calculateComputedPriority, rawComputedPriority, jsNumOr]
  · intro h
    subst h
    norm_num [calculateComputedPriority, rawComputedPriority, jsNumOr,
      JNum.jmul, JNum.jdiv, JNum.isFinite]
  · rintro (h | h | h | h | ⟨q, hq, hq0⟩)
    · subst h
      norm_num [calculateComputedPriority, rawComputedPriority, jsNumOr]
    · subst h
      norm_num [calculateComputedPriority, rawComputedPriority, jsNumOr]
    · subst h
      norm_num [calculateComputedPriority, rawComputedPriority, jsNumOr]
    · subst h
      norm_num [calculateComputedPriority, rawComputedPriority, jsNumOr]
    · subst hq
      simp only [calculateComputedPriority, rawComputedPriority, jsNumOr]
      rw [if_neg (not_lt.mpr hq0)]
      norm_num

/-- Witness for C8: a task with absent importance computes like the same
task with `importance = 3`. -/
theorem C8_witness :
    calculateComputedPriority blankTask =
      calculateComputedPriority { blankTask with importance := JSVal.num 3 } :=
  (C8_amended blankTask).1 (Or.inl rfl)

/-- Whether a dependency id is either dangling or resolves to a done task
(the hypothesis of the dangling-ids claim, as a decidable check). -/
def depResolvedDone (c : List Task) (d : String) : Bool :=
  match jsMapGet c d with
  | some u => normalizeStatus u.status == "done"
  | none => true

/-- A task whose raw status is the synonym `blocked` and whose only
dependency id resolves to nothing. -/
def rawBlockedTask : Task :=
  { blankTask with
      id := "t", status := some ("blocked"), dependsOn := some (["ghost"]) }

/-- Claim C9, counterexample: a task none of whose dependency ids resolve
can still be `restricted` — when its OWN raw status normalizes to
`restricted` (raw `blocked`) — so "the task is not restricted" fails as
stated. -/
theorem C9_counterexample :
    (∀ d ∈ depsOf rawBlockedTask, jsMapGet [rawBlockedTask] d = none) ∧
    effectiveStatusOf rawBlockedTask [rawBlockedTask] = "restricted" := by
  decide

/-- Claim C9, amended: when every dependency id is dangling or resolves to
a done task, the unmet list is empty, the effective status equals the
normalized RAW status (so dependencies never cause a restriction, though a
raw `blocked`/`restricted` status still shows through), and `blockedReason`
is null — in particular dangling ids are never named. -/
theorem C9_amended (t : Task) (c : List Task)
    (h : ∀ d ∈ depsOf t, depResolvedDone c d = true) :
    unmetDeps t c = [] ∧
    effectiveStatusOf t c = normalizeStatus t.status ∧
    blockedReasonOf t c = none := by
  have hu : unmetDeps t c = [] := by
    unfold unmetDeps
    rw [List.filter_eq_nil_iff]
    intro d hd
    have hdone := h d hd
    unfold depResolvedDone at hdone
    cases hg : jsMapGet c d <;> rw [hg] at hdone <;> simp_all
  refine ⟨hu, ?_, ?_⟩
  · unfold effectiveStatusOf
    simp [hu]
  · unfold blockedReasonOf
    simp [hu]

/-- Witness for C9: the task with only a dangling dependency id gets no
unmet list, keeps its raw status and has a null blockedReason. -/
theorem C9_witness :
    unmetDeps rawBlockedTask [rawBlockedTask] = [] ∧
    effectiveStatusOf rawBlockedTask [rawBlockedTask] =
      normalizeStatus rawBlockedTask.status ∧
    blockedReasonOf rawBlockedTask [rawBlockedTask] = none :=
  C9_amended rawBlockedTask [rawBlockedTask] (by decide)

/-- A not-done task that depends on four unmet tasks and then on itself. -/
def selfDepTask : Task :=
  { blankTask with
      id := "t5", title := some ("T5"), status := some ("todo"),
      dependsOn := some (["d1", "d2", "d3", "d4", "t5"]) }

/-- A named, not-done dependency task. -/
def namedDepTask (i ttl : String) : Task :=
  { blankTask with id := i, title := some ttl, status := some ("todo") }

/-- Collection with the four dependencies and the self-depending task. -/
def c10Collection : List Task :=
  [namedDepTask ("d1") ("D1"), namedDepTask ("d2") ("D2"),
    namedDepTask ("d3") ("D3"), namedDepTask ("d4") ("D4"), selfDepTask]

/-- Claim C10, counterexample: a self-depending, not-done task is indeed
`restricted`, but it is NOT named in `blockedReason` when it is not among
the first four unmet dependencies — the reason text truncates to four
labels, so the claimed "t itself named in blockedReason" fails. -/
theorem C10_counterexample :
    selfDepTask.id ∈ depsOf selfDepTask ∧
    normalizeStatus selfDepTask.status ≠ "done" ∧
    effectiveStatusOf selfDepTask c10Collection = "restricted" ∧
    blockedReasonOf selfDepTask c10Collection =
      some ("Blocked by: D1, D2, D3, D4…") ∧
    depLabel c10Collection selfDepTask.id ∉
      namedLabels selfDepTask c10Collection := by
  decide

/-- Claim C10, amended: a task whose id resolves to itself, that lists
itself as a dependency and whose raw status does not normalize to `done`,
is always `restricted` (there is no self-dependency guard; its own id is in
the unmet list so this persists until the raw status becomes done), and its
label is named in `blockedReason` whenever its id is among the FIRST FOUR
unmet dependency ids. -/
theorem C10_amended (t : Task) (c : List Task)
    (hself : jsMapGet c t.id = some t) (hdep : t.id ∈ depsOf t)
    (hnd : normalizeStatus t.status ≠ "done") :
    t.id ∈ unmetDeps t c ∧
    effectiveStatusOf t c = "restricted" ∧
    (t.id ∈ (unmetDeps t c).take 4 →
      depLabel c t.id ∈ namedLabels t c) := by
  have hmem : t.id ∈ unmetDeps t c := by
    unfold unmetDeps
    rw [List.mem_filter]
    refine ⟨hdep, ?_⟩
    rw [hself]
    simp [hnd]
  refine ⟨hmem, ?_, ?_⟩
  · unfold effectiveStatusOf
    have hne : unmetDeps t c ≠ [] := by
      intro h0
      rw [h0] at hmem
      exact absurd hmem (List.not_mem_nil _)
    simp [hnd, hne]
  · intro htake
    unfold namedLabels
    exact List.mem_map_of_mem _ htake

/-- A minimal self-loop task. -/
def selfLoopTask : Task :=
  { blankTask with id := "a", dependsOn := some (["a"]) }

/-- Witness for C10: the minimal self-loop task is named in its own
blockedReason label list. -/
theorem C10_witness :
    depLabel [selfLoopTask] selfLoopTask.id ∈
      namedLabels selfLoopTask [selfLoopTask] :=
  (C10_amended selfLoopTask [selfLoopTask] (by decide) (by decide)
    (by decide)).2.2 (by decide)

/-- The agreement hypothesis of the one-level claim: at a dependency id
`d`, the two collections either both resolve nothing, or resolve tasks with
the same raw status and title. -/
def agreeAt (c1 c2 : List Task) (d : String) : Bool :=
  match jsMapGet c1 d, jsMapGet c2 d with
  | none, none => true
  | some u, some v => u.status == v.status && u.title == v.title
  | _, _ => false

/-- Claim C7 (confirmed): the status resolver is a one-level check — two
collections that agree on the raw status and title of what each of the
task's dependency ids resolves to (including agreeing on non-resolution)
give identical `calculateEffectiveStatus` results; dependencies of
dependencies are never consulted. -/
theorem C7_one_level (t : Task) (c1 c2 : List Task)
    (h : ∀ d ∈ depsOf t, agreeAt c1 c2 d = true) :
    calculateEffectiveStatus t c1 = calculateEffectiveStatus t c2 := by
  have hunmet : unmetDeps t c1 = unmetDeps t c2 := by
    unfold unmetDeps
    apply List.filter_congr
    intro d hd
    have hag := h d hd
    unfold agreeAt at hag
    cases h1 : jsMapGet c1 d <;> cases h2 : jsMapGet c2 d <;>
      rw [h1, h2] at hag <;> simp_all
  have hlabel : ∀ d ∈ (unmetDeps t c2).take 4,
      depLabel c1 d = depLabel c2 d := by
    intro d hd
    have hd2 : d ∈ unmetDeps t c2 := List.take_subset _ _ hd
    have hdd : d ∈ depsOf t := by
      unfold unmetDeps at hd2
      exact (List.mem_filter.mp hd2).1
    have hag := h d hdd
    unfold agreeAt at hag
    unfold depLabel
    cases h1 : jsMapGet c1 d <;> cases h2 : jsMapGet c2 d <;>
      rw [h1, h2] at hag <;> simp_all
  have hmap : ((unmetDeps t c2).take 4).map (depLabel c1) =
      ((unmetDeps t c2).take 4).map (depLabel c2) :=
    List.map_congr_left hlabel
  have e1 : effectiveStatusOf t c1 = effectiveStatusOf t c2 := by
    unfold effectiveStatusOf
    rw [hunmet]
  have e2 : blockedReasonOf t c1 = blockedReasonOf t c2 := by
    unfold blockedReasonOf namedLabels
    rw [hunmet, hmap]
  unfold calculateEffectiveStatus
  rw [e1, e2]

/-- A task depending on `b` only. -/
def c7Base : Task :=
  { blankTask with id := "a", dependsOn := some (["b"]) }

/-- The direct dependency `b`, itself depending on `c`. -/
def c7DepB : Task :=
  { blankTask with
      id := "b", title := some ("B"), status := some ("todo"),
      dependsOn := some (["c"]) }

/-- The dependency-of-dependency `c` with a chosen raw status. -/
def c7TaskC (st : String) : Task :=
  { blankTask with id := "c", status := some st }

/-- Witness for C7: flipping the status of the dependency-of-dependency `c`
does not change the resolution of `a`. -/
theorem C7_witness :
    calculateEffectiveStatus c7Base [c7Base, c7DepB, c7TaskC ("done")] =
      calculateEffectiveStatus c7Base [c7Base, c7DepB, c7TaskC ("todo")] :=
  C7_one_level c7Base _ _ (by decide)

/-- The comparator relation is total. -/
lemma blockLe_total {α : Type} (f : α → Bool) (g : α → ℚ) (a b : α) :
    (blockLe f g a b || blockLe f g b a) = true := by
  by_cases h : f a = f b
  · rcases le_total (g b) (g a) with hle | hle <;> simp [blockLe, h, hle]
  · cases ha : f a <;> cases hb : f b <;> simp_all [blockLe]

/-- The comparator relation is transitive. -/
lemma blockLe_trans {α : Type} (f : α → Bool) (g : α → ℚ) (a b c : α)
    (hab : blockLe f g a b = true) (hbc : blockLe f g b c = true) :
    blockLe f g a c = true := by
  cases ha : f a <;> cases hb : f b <;> cases hc : f c <;>
    simp_all [blockLe] <;> exact le_trans hbc hab

/-- A true comparison never moves a blocked element before an unblocked
one. -/
lemma blockLe_blocked_mono {α : Type} {f : α → Bool} {g : α → ℚ} {a b : α}
    (hle : blockLe f g a b = true) (ha : f a = true) : f b = true := by
  by_cases h : f a = f b
  · rwa [← h]
  · rw [blockLe, if_pos h] at hle
    simp [ha] at hle

/-- A true comparison within one partition means non-increasing keys. -/
lemma blockLe_key {α : Type} {f : α → Bool} {g : α → ℚ} {a b : α}
    (hle : blockLe f g a b = true) (h : f a = f b) : g b ≤ g a := by
  rw [blockLe, if_neg (fun hn => hn h)] at hle
  exact of_decide_eq_true hle

/-- Equal partition and a key bound give a true comparison. -/
lemma blockLe_of_eq {α : Type} {f : α → Bool} {g : α → ℚ} {a b : α}
    (h : f a = f b) (hge : g b ≤ g a) : blockLe f g a b = true := by
  rw [blockLe, if_neg (fun hn => hn h)]
  exact decide_eq_true hge

/-- Claim C6 (confirmed): `sortByPriority` is a permutation of its input in
which every blocked task comes after every unblocked one, the sort key is
non-increasing within each partition, and any two tasks with equal
comparison keys (same blocked flag, same key) keep their relative input
order. -/
theorem C6_ranking (ctx : List Task) (xs : List Task) :
    (sortByPriority ctx xs).Perm xs ∧
    List.Pairwise
      (fun a b => isBlockedIn ctx a = true → isBlockedIn ctx b = true)
      (sortByPriority ctx xs) ∧
    List.Pairwise
      (fun a b => isBlockedIn ctx a = isBlockedIn ctx b →
        taskSortKey b ≤ taskSortKey a)
      (sortByPriority ctx xs) ∧
    (∀ a b, isBlockedIn ctx a = isBlockedIn ctx b →
      taskSortKey a = taskSortKey b → [a, b].Sublist xs →
      [a, b].Sublist (sortByPriority ctx xs)) := by
  have htrans := fun a b c =>
    blockLe_trans (isBlockedIn ctx) taskSortKey a b c
  have htotal := fun a b => blockLe_total (isBlockedIn ctx) taskSortKey a b
  have hsorted := List.sorted_mergeSort htrans htotal xs
  refine ⟨List.mergeSort_perm xs _, ?_, ?_, ?_⟩
  · exact hsorted.imp fun hle ha => blockLe_blocked_mono hle ha
  · exact hsorted.imp fun hle h => blockLe_key hle h
  · intro a b hf hk hsub
    apply List.sublist_mergeSort htrans htotal ?_ hsub
    refine List.pairwise_cons.mpr ⟨?_, List.pairwise_singleton _ _⟩
    intro y hy
    rw [List.mem_singleton] at hy
    subst hy
    exact blockLe_of_eq hf (le_of_eq hk.symm)

/-- A first task carrying the annotated priority 5. -/
def tieTaskA : Task := { blankTask with id := "p", computedPriority := some 5 }

/-- A second task carrying the same annotated priority. -/
def tieTaskB : Task := { blankTask with id := "q", computedPriority := some 5 }

/-- Witness for C6: two equal-key tasks keep their input order through the
sort. -/
theorem C6_witness :
    [tieTaskA, tieTaskB].Sublist (sortByPriority [] [tieTaskA, tieTaskB]) :=
  (C6_ranking [] [tieTaskA, tieTaskB]).2.2.2 tieTaskA tieTaskB (by decide)
    (by decide) (List.Sublist.refl _)

/-- The literal `done` status normalizes to `done`. -/
lemma normalizeStatus_done : normalizeStatus (some ("done")) = "done" := by
  decide

/-- Overlaying never changes a task's id. -/
lemma overlayFn_id (c : List String) (t : Task) : (overlayFn c t).id = t.id := by
  unfold overlayFn
  split <;> rfl

/-- A successful map lookup returns a member with the looked-up id. -/
lemma jsMapGet_mem {l : List Task} {k : String} {u : Task}
    (h : jsMapGet l k = some u) : u ∈ l ∧ u.id = k := by
  unfold jsMapGet at h
  refine ⟨List.mem_reverse.mp (List.mem_of_find?_eq_some h), ?_⟩
  have hp := List.find?_some h
  simpa using hp

/-- With distinct ids, looking up a member's id returns that member. -/
lemma jsMapGet_self {tasks : List Task} (hnd : (tasks.map Task.id).Nodup)
    {t : Task} (ht : t ∈ tasks) : jsMapGet tasks t.id = some t := by
  cases hfind : jsMapGet tasks t.id with
  | none =>
    unfold jsMapGet at hfind
    have := List.find?_eq_none.mp hfind t (List.mem_reverse.mpr ht)
    simp at this
  | some u =>
    obtain ⟨hu, hid⟩ := jsMapGet_mem hfind
    have heq : u = t := List.inj_on_of_nodup_map hnd hu ht hid
    exact congrArg some heq

/-- Looking up in the overlaid collection is overlaying the lookup. -/
lemma jsMapGet_overlay (tasks : List Task) (c : List String) (k : String) :
    jsMapGet (overlayDone tasks c) k =
      (jsMapGet tasks k).map (overlayFn c) := by
  unfold jsMapGet overlayDone
  have hpred : ((fun t : Task => t.id == k) ∘ overlayFn c) =
      (fun t : Task => t.id == k) := by
    funext t
    simp [Function.comp, overlayFn_id]
  rw [← List.map_reverse, List.find?_map, hpred]

/-- The normalized status after overlaying: `done` for completed ids,
unchanged otherwise. -/
lemma overlay_status {c : List String} {t : Task} :
    normalizeStatus ((overlayFn c t).status) =
      if t.id ∈ c then "done" else normalizeStatus t.status := by
  unfold overlayFn
  by_cases h : t.id ∈ c
  · have hc : c.contains t.id = true := by simpa using h
    rw [if_pos h, if_pos hc]
    exact normalizeStatus_done
  · have hc : ¬ c.contains t.id = true := by simpa using h
    rw [if_neg h, if_neg hc]

/-- Whether a task would pass the execution-order filter: unblocked against
the overlay, not effectively done, not already completed. -/
def eligible (tasks : List Task) (c : List String) (t : Task) : Bool :=
  !(effectiveStatusOf t (overlayDone tasks c) == "restricted") &&
    !(effectiveStatusOf t (overlayDone tasks c) == "done") &&
    !(c.contains t.id)

/-- On a breakdown, the execution-order filter is exactly `eligible`. -/
lemma pred_mkBreakdown (tasks : List Task) (c : List String) (t : Task) :
    (!(mkBreakdown (overlayDone tasks c) c t).isBlocked &&
      !((mkBreakdown (overlayDone tasks c) c t).effectiveStatus == "done") &&
      !(mkBreakdown (overlayDone tasks c) c t).isCompletedInSimulation) =
      eligible tasks c t := rfl

/-- The execution order is empty exactly when no task is eligible. -/
lemma executionOrder_eq_nil_iff (tasks : List Task) (c : List String) :
    executionOrder tasks c = [] ↔ ∀ t ∈ tasks, eligible tasks c t = false := by
  unfold executionOrder sortedSimTasks taskBreakdowns
  rw [List.filter_eq_nil_iff]
  constructor
  · intro h t ht
    have hb := h (mkBreakdown (overlayDone tasks c) c t)
      ((List.mergeSort_perm _ _).mem_iff.mpr (List.mem_map_of_mem _ ht))
    rw [pred_mkBreakdown] at hb
    simpa using hb
  · intro h b hb
    obtain ⟨t, ht, heq⟩ :=
      List.mem_map.mp ((List.mergeSort_perm _ _).mem_iff.mp hb)
    subst heq
    rw [pred_mkBreakdown]
    simp [h t ht]

/-- Characterization of eligibility for a member task whose raw status is
`todo` or `ongoing`, with distinct ids: eligible iff not yet completed and
every dependency id that resolves in the task set is already completed. -/
lemma eligible_iff (tasks : List Task) (c : List String) {t : Task}
    (hnd : (tasks.map Task.id).Nodup)
    (hstatus : ∀ u ∈ tasks, normalizeStatus u.status = "todo" ∨
      normalizeStatus u.status = "ongoing")
    (ht : t ∈ tasks) :
    eligible tasks c t = true ↔
      (t.id ∉ c ∧ ∀ d ∈ depsOf t, ∀ u ∈ tasks, u.id = d → u.id ∈ c) := by
  have hraw := hstatus t ht
  have hrawne : normalizeStatus t.status ≠ "done" := by
    rcases hraw with h | h <;> rw [h] <;> decide
  have hrawnr : normalizeStatus t.status ≠ "restricted" := by
    rcases hraw with h | h <;> rw [h] <;> decide
  have hunmet : unmetDeps t (overlayDone tasks c) = [] ↔
      ∀ d ∈ depsOf t, ∀ u ∈ tasks, u.id = d → u.id ∈ c := by
    unfold unmetDeps
    rw [List.filter_eq_nil_iff]
    constructor
    · intro h d hd u hu hud
      have hpd := h d hd
      rw [jsMapGet_overlay, ← hud, jsMapGet_self hnd hu] at hpd
      simp only [Option.map_some'] at hpd
      have hpd2 : ¬ (!(normalizeStatus (overlayFn c u).status == "done")) =
          true := hpd
      rw [overlay_status] at hpd2
      by_contra hnc
      rw [if_neg hnc] at hpd2
      rcases hstatus u hu with h1 | h1 <;> rw [h1] at hpd2 <;> simp at hpd2
    · intro h d hd
      rw [jsMapGet_overlay]
      cases hg : jsMapGet tasks d with
      | none => simp
      | some u =>
        obtain ⟨hu, hud⟩ := jsMapGet_mem hg
        have huc : u.id ∈ c := h d hd u hu hud
        simp only [Option.map_some']
        show ¬ (!(normalizeStatus (overlayFn c u).status == "done")) = true
        rw [overlay_status, if_pos huc]
        simp
  unfold eligible effectiveStatusOf
  by_cases hu : unmetDeps t (overlayDone tasks c) = []
  · rw [if_neg (fun hcon => hcon.2 hu)]
    have h1 : (normalizeStatus t.status == "restricted") = false := by
      simpa using hrawnr
    have h2 : (normalizeStatus t.status == "done") = false := by
      simpa using hrawne
    rw [h1, h2]
    simp
    exact fun _ => hunmet.mp hu
  · rw [if_pos ⟨hrawne, hu⟩]
    constructor
    · intro hfalse
      simp at hfalse
    · rintro ⟨hnc, hcond⟩
      exact absurd (hunmet.mpr hcond) hu

/-- When every task is completed, nothing is eligible and the execution
order is empty. -/
lemma executionOrder_eq_nil_of_all (tasks : List Task) (c : List String)
    (hall : ∀ t ∈ tasks, t.id ∈ c) :
    executionOrder tasks c = [] := by
  rw [executionOrder_eq_nil_iff]
  intro t ht
  have hc : c.contains t.id = true := by simpa using hall t ht
  unfold eligible
  rw [hc]
  simp

/-- While some task is uncompleted, the execution order stays non-empty
(progress; acyclicity enters through the rank function). -/
lemma executionOrder_progress (tasks : List Task) (c : List String)
    (hnd : (tasks.map Task.id).Nodup)
    (hstatus : ∀ u ∈ tasks, normalizeStatus u.status = "todo" ∨
      normalizeStatus u.status = "ongoing")
    (rank : String → Nat)
    (hrank : ∀ t ∈ tasks, ∀ u ∈ tasks, u.id ∈ depsOf t →
      rank u.id < rank t.id)
    (hex : ∃ t ∈ tasks, t.id ∉ c) :
    executionOrder tasks c ≠ [] := by
  intro hnil
  rw [executionOrder_eq_nil_iff] at hnil
  have key : ∀ n, ∀ t ∈ tasks, t.id ∉ c → rank t.id < n → False := by
    intro n
    induction n with
    | zero => intro t _ _ hlt; omega
    | succ n ih =>
      intro t ht hnc hlt
      obtain ⟨d, hd, u, hu, hud, hunc⟩ :
          ∃ d ∈ depsOf t, ∃ u ∈ tasks, u.id = d ∧ u.id ∉ c := by
        by_contra hno
        push_neg at hno
        have := (eligible_iff tasks c hnd hstatus ht).mpr ⟨hnc, hno⟩
        rw [hnil t ht] at this
        cases this
      have hd2 : u.id ∈ depsOf t := hud ▸ hd
      have h3 := hrank t ht u hu hd2
      exact ih u hu hunc (by omega)
  obtain ⟨t, ht, hnc⟩ := hex
  exact key (rank t.id + 1) t ht hnc (by omega)

/-- The first task of a non-empty execution order is a member that is not
yet completed and whose resolvable dependencies are all completed. -/
lemma executionOrder_head (tasks : List Task) (c : List String)
    {b : Breakdown} {rest : List Breakdown}
    (hnd : (tasks.map Task.id).Nodup)
    (hstatus : ∀ u ∈ tasks, normalizeStatus u.status = "todo" ∨
      normalizeStatus u.status = "ongoing")
    (h : executionOrder tasks c = b :: rest) :
    ∃ t ∈ tasks, b.task = t ∧ t.id ∉ c ∧
      ∀ d ∈ depsOf t, ∀ u ∈ tasks, u.id = d → u.id ∈ c := by
  have hb : b ∈ executionOrder tasks c := by
    rw [h]
    exact List.mem_cons_self _ _
  unfold executionOrder sortedSimTasks taskBreakdowns at hb
  have hmem := List.mem_filter.mp hb
  obtain ⟨t, ht, heq⟩ :=
    List.mem_map.mp ((List.mergeSort_perm _ _).mem_iff.mp hmem.1)
  subst heq
  have hel : eligible tasks c t = true := by
    have hp := hmem.2
    rw [pred_mkBreakdown] at hp
    exact hp
  obtain ⟨hnc, hdeps⟩ := (eligible_iff tasks c hnd hstatus ht).mp hel
  exact ⟨t, ht, rfl, hnc, hdeps⟩

/-- Dependency-ordering invariant of a history: whenever an id occurs, every
resolvable dependency of its task occurs strictly earlier. -/
def depClosed (tasks : List Task) (hist : List String) : Prop :=
  ∀ pre x post, hist = pre ++ x :: post →
    ∀ t ∈ tasks, t.id = x → ∀ u ∈ tasks, u.id ∈ depsOf t → u.id ∈ pre

/-- Appending an id whose task's resolvable dependencies already occur
preserves the invariant. -/
lemma depClosed_append (tasks : List Task) (hist : List String) (tid : String)
    (hdc : depClosed tasks hist)
    (hnew : ∀ t ∈ tasks, t.id = tid → ∀ u ∈ tasks, u.id ∈ depsOf t →
      u.id ∈ hist) :
    depClosed tasks (hist ++ [tid]) := by
  intro pre x post hsplit t ht htx u hu hud
  rcases List.eq_nil_or_concat post with hpost | ⟨post2, a, hpost⟩
  · subst hpost
    obtain ⟨h2a, h2b⟩ := List.append_inj' hsplit rfl
    have hx : tid = x := by simpa using h2b
    subst h2a
    exact hnew t ht (htx.trans hx.symm) u hu hud
  · subst hpost
    rw [List.concat_eq_append, ← List.cons_append, ← List.append_assoc]
      at hsplit
    obtain ⟨h2a, h2b⟩ := List.append_inj' hsplit rfl
    exact hdc pre x post2 h2a t ht htx u hu hud

/-- Once a duplicate-free history of ids of member tasks reaches the task
count, every task's id occurs in it. -/
lemma all_ids_mem (tasks : List Task) (hist : List String)
    (hnodup : hist.Nodup)
    (hsound : ∀ x ∈ hist, ∃ t ∈ tasks, t.id = x)
    (hlen : tasks.length ≤ hist.length) :
    ∀ t ∈ tasks, t.id ∈ hist := by
  have hsub : hist ⊆ tasks.map Task.id := by
    intro x hx
    obtain ⟨t, ht, htx⟩ := hsound x hx
    exact htx ▸ List.mem_map_of_mem _ ht
  have hsp := List.subperm_of_subset hnodup hsub
  have hperm := hsp.perm_of_length_le (by simpa using hlen)
  intro t ht
  exact hperm.mem_iff.mpr (List.mem_map_of_mem _ ht)

/-- The running invariant of the simulation: the history is duplicate-free,
holds only member ids, is dependency-closed, and grows by one per step until
all tasks are completed. -/
lemma simRun_invariant (tasks : List Task)
    (hnd : (tasks.map Task.id).Nodup)
    (hstatus : ∀ t ∈ tasks, normalizeStatus t.status = "todo" ∨
      normalizeStatus t.status = "ongoing")
    (rank : String → Nat)
    (hrank : ∀ t ∈ tasks, ∀ u ∈ tasks, u.id ∈ depsOf t →
      rank u.id < rank t.id) (n : Nat) :
    (simRun tasks n).Nodup ∧
    (∀ x ∈ simRun tasks n, ∃ t ∈ tasks, t.id = x) ∧
    depClosed tasks (simRun tasks n) ∧
    (simRun tasks n).length = min n tasks.length := by
  induction n with
  | zero =>
    refine ⟨List.nodup_nil, ?_, ?_, ?_⟩
    · intro x hx
      exact absurd hx (List.not_mem_nil x)
    · intro pre x post hsplit
      exact absurd hsplit (by simp [simRun])
    · simp [simRun]
  | succ n ih =>
    obtain ⟨hnodup, hsound, hdc, hlen⟩ := ih
    cases hstep : executionOrder tasks (simRun tasks n) with
    | nil =>
      have hss : simRun tasks (n + 1) = simRun tasks n := by
        show simStep tasks (simRun tasks n) = simRun tasks n
        unfold simStep
        rw [hstep]
      rw [hss]
      refine ⟨hnodup, hsound, hdc, ?_⟩
      rcases le_or_lt tasks.length n with hge | hlt
      · rw [hlen, min_eq_right hge,
          min_eq_right (le_trans hge (Nat.le_succ n))]
      · exfalso
        have hex : ∃ t ∈ tasks, t.id ∉ simRun tasks n := by
          by_contra hno
          push_neg at hno
          have hsub : tasks.map Task.id ⊆ simRun tasks n := by
            intro x hx
            obtain ⟨t, ht, rfl⟩ := List.mem_map.mp hx
            exact hno t ht
          have hle := (List.subperm_of_subset hnd hsub).length_le
          rw [List.length_map, hlen, min_eq_left (Nat.le_of_lt hlt)] at hle
          omega
        exact executionOrder_progress tasks _ hnd hstatus rank hrank hex hstep
    | cons b rest =>
      have hss : simRun tasks (n + 1) = simRun tasks n ++ [b.task.id] := by
        show simStep tasks (simRun tasks n) = _
        unfold simStep
        rw [hstep]
      obtain ⟨t, ht, hbt, hnc, hdeps⟩ :=
        executionOrder_head tasks _ hnd hstatus hstep
      rw [hss, hbt]
      have hlt : n < tasks.length := by
        by_contra hge
        push_neg at hge
        have hfull : ∀ u ∈ tasks, u.id ∈ simRun tasks n := by
          apply all_ids_mem tasks _ hnodup hsound
          rw [hlen, min_eq_right hge]
        rw [executionOrder_eq_nil_of_all tasks _ hfull] at hstep
        simp at hstep
      refine ⟨?_, ?_, ?_, ?_⟩
      · rw [List.nodup_append]
        refine ⟨hnodup, List.nodup_singleton _, ?_⟩
        intro x hx hx2
        rw [List.mem_singleton] at hx2
        subst hx2
        exact hnc hx
      · intro x hx
        rw [List.mem_append] at hx
        rcases hx with hx | hx
        · exact hsound x hx
        · rw [List.mem_singleton] at hx
          exact ⟨t, ht, hx.symm⟩
      · apply depClosed_append tasks _ _ hdc
        intro t2 ht2 ht2id u hu hud
        have ht2t : t2 = t := List.inj_on_of_nodup_map hnd ht2 ht ht2id
        subst ht2t
        exact hdeps u.id hud u hu rfl
      · rw [List.length_append, hlen]
        simp only [List.length_singleton]
        rw [min_eq_left (Nat.le_of_lt hlt), min_eq_left hlt]

/-- Claim C1, amended: for a task set with distinct ids, an acyclic
dependency graph (witnessed by a rank function that strictly drops along
`dependsOn` edges), and every raw status normalizing to `todo` or `ongoing`
(none already `done`, none raw `restricted`): running the simulator for N
steps empties the execution order and completes exactly the N tasks, each
exactly once, and every task it depends on (that resolves in the set)
appears strictly earlier in the completion history. -/
theorem C1_amended (tasks : List Task)
    (hnd : (tasks.map Task.id).Nodup)
    (hstatus : ∀ t ∈ tasks, normalizeStatus t.status = "todo" ∨
      normalizeStatus t.status = "ongoing")
    (rank : String → Nat)
    (hrank : ∀ t ∈ tasks, ∀ u ∈ tasks, u.id ∈ depsOf t →
      rank u.id < rank t.id) :
    executionOrder tasks (simRun tasks tasks.length) = [] ∧
    (simRun tasks tasks.length).length = tasks.length ∧
    (simRun tasks tasks.length).Nodup ∧
    (∀ t ∈ tasks, t.id ∈ simRun tasks tasks.length) ∧
    (∀ x ∈ simRun tasks tasks.length, ∃ t ∈ tasks, t.id = x) ∧
    (∀ t ∈ tasks, ∀ u ∈ tasks, u.id ∈ depsOf t →
      ∃ pre post, simRun tasks tasks.length = pre ++ t.id :: post ∧
        u.id ∈ pre) := by
  obtain ⟨hnodup, hsound, hdc, hlen⟩ :=
    simRun_invariant tasks hnd hstatus rank hrank tasks.length
  rw [min_self] at hlen
  have hall := all_ids_mem tasks _ hnodup hsound (le_of_eq hlen.symm)
  refine ⟨executionOrder_eq_nil_of_all tasks _ hall, hlen, hnodup, hall,
    hsound, ?_⟩
  intro t ht u hu hud
  obtain ⟨pre, post, hsplit⟩ := List.append_of_mem (hall t ht)
  exact ⟨pre, post, hsplit, hdc pre t.id post hsplit t ht rfl u hu hud⟩

/-- A single task whose raw status is already `done`. -/
def doneOnlyTask : Task :=
  { blankTask with id := "d", status := some ("done") }

/-- Claim C1, counterexample: on the one-task set whose task is already raw
`done` (trivially acyclic), the execution order is empty at the fresh state,
so the run stops immediately with an empty history — it completes 0 tasks,
not N = 1. -/
theorem C1_counterexample :
    executionOrder [doneOnlyTask] [] = [] ∧
    simRun [doneOnlyTask] 1 = [] ∧
    ¬ (simRun [doneOnlyTask] 1).length = [doneOnlyTask].length := by
  have hexec : executionOrder [doneOnlyTask] [] = [] := by
    rw [executionOrder_eq_nil_iff]
    decide
  have hrun : simRun [doneOnlyTask] 1 = [] := by
    show simStep [doneOnlyTask] [] = []
    unfold simStep
    rw [hexec]
  refine ⟨hexec, hrun, ?_⟩
  rw [hrun]
  decide

/-- A free task with id 1. -/
def simTaskOne : Task :=
  { blankTask with id := "1", status := some ("todo") }

/-- A task with id 2 depending on task 1. -/
def simTaskTwo : Task :=
  { blankTask with
      id := "2", status := some ("todo"), dependsOn := some (["1"]) }

/-- A topological rank for the two-task chain. -/
def chainRank (s : String) : Nat := if s = "1" then 0 else 1

/-- Witness for C1: in the two-task chain, the dependent task's id is
completed by the two-step run. -/
theorem C1_witness :
    simTaskTwo.id ∈ simRun [simTaskOne, simTaskTwo] 2 :=
  (C1_amended [simTaskOne, simTaskTwo] (by decide) (by decide) chainRank
    (by decide)).2.2.2.1 simTaskTwo (by decide)

end HackStream
